import Mathlib

/-!
Verification of the orbital-indexing and storage core of `pycdft`
(`pycdft/common/wfc.py`): the `WfcManager` dual-addressed container and the
`Wavefunction` aggregate that builds the internal-index / (spin, kpoint, band)
maps, the occupation array, and the real-space normalization transform.

The Python code is embedded shallowly: dictionaries become functions or
position-indexed lists, NumPy arrays become nested lists, exceptions become
`Except` values, and the index maps are recovered from the construction-order
enumeration of triples.
-/

set_option maxRecDepth 8000

namespace PyCdft

/-- Errors raised by store operations, mirroring the Python exceptions of
`WfcManager._get_idx`, `__getitem__`, `__setitem__` and
`Wavefunction.normalize`: `invalidKeyType` is the `ValueError`,
`indexOutOfRange` the `IndexError` whose message carries the configured bounds
`(nspin, nkpt, nbnd)`, `keyNotFound` the dict `KeyError`, and `shapeMismatch`
the `AssertionError` inside `normalize`. -/
inductive Err where
  | invalidKeyType
  | indexOutOfRange (nspin nkpt : Nat) (nbnd : List (List Nat))
  | keyNotFound
  | shapeMismatch
  deriving DecidableEq

/-- A Python value appearing as a component of a tuple key: either something
`int()` coerces (modelled by its integer value) or a value on which `int()`
raises `ValueError`, such as a non-numeric string. -/
inductive PyVal where
  | intLike (n : Int)
  | nonNumeric
  deriving DecidableEq

/-- A key passed to `WfcManager.__getitem__` or `__setitem__`: either a value
`int()` accepts directly (an internal index) or a sequence accessed
positionally (`key[0]`, `key[1]`, `key[2]`), on which `int(key)` raises
`TypeError`. -/
inductive Key where
  | intKey (n : Int)
  | tupleKey (xs : List PyVal)
  deriving DecidableEq

/-- First position in a list satisfying a predicate. Used to look a triple up
in the `skb_idx_map` dictionary, whose keys are the entries of the
(duplicate-free) construction-order list of triples. -/
def listFindIdx {α : Type} (p : α → Bool) : List α → Option Nat
  | [] => none
  | x :: xs => if p x then some 0 else (listFindIdx p xs).map (· + 1)

/-- Entry of the band-count array `nbnd` at `(s, k)`, as a partial lookup;
`none` models a NumPy `IndexError`. -/
def nbndGet (nbnd : List (List Nat)) (s k : Nat) : Option Nat :=
  match nbnd[s]? with
  | some row => row[k]?
  | none => none

/-- Total variant of `nbndGet`, used where the source only performs in-range
accesses. -/
def nbndVal (nbnd : List (List Nat)) (s k : Nat) : Nat :=
  (nbndGet nbnd s k).getD 0

/-- The list of `(spin, kpoint, band)` triples in the order the constructor of
`Wavefunction` enumerates them (spin outer, k-point middle, band inner, each
ascending from zero). Entry `i` of this list is `idx_skb_map[i]`. -/
def orbList (nspin nkpt : Nat) (nbnd : List (List Nat)) : List (Nat × Nat × Nat) :=
  (List.range nspin).flatMap fun s =>
    (List.range nkpt).flatMap fun k =>
      (List.range (nbndVal nbnd s k)).map fun b => (s, k, b)

/-- The configuration and index state a `Wavefunction` holds after
construction: `nspin`, `nkpt`, the band-count array `nbnd` of shape
`(nspin, nkpt)`, the stored occupation array `occ` (entries as rationals), and
whether `occ` was allocated with `dtype=int`. The two index maps are recovered
from `orbList` by the same enumeration the constructor performs. -/
structure Wfc where
  nspin : Nat
  nkpt : Nat
  nbnd : List (List Nat)
  occ : List (List (List ℚ))
  occIntDtype : Bool
  deriving DecidableEq

/-- The construction-order enumeration of this wavefunction's triples. -/
def Wfc.orbs (w : Wfc) : List (Nat × Nat × Nat) := orbList w.nspin w.nkpt w.nbnd

/-- The attribute `norb`: the number of entries of `idx_skb_map`. -/
def Wfc.norb (w : Wfc) : Nat := w.orbs.length

/-- Models `Wavefunction.idx2skb`: look an internal index up in `idx_skb_map`;
`none` models the `KeyError` for an out-of-range index. -/
def Wfc.idx2skb (w : Wfc) (i : Nat) : Option (Nat × Nat × Nat) := w.orbs[i]?

/-- Models `Wavefunction.skb2idx`: look a triple up in `skb_idx_map`, returning
`none` (Python `None`) when the triple is absent. -/
def Wfc.skb2idx (w : Wfc) (t : Nat × Nat × Nat) : Option Nat :=
  listFindIdx (fun u => decide (u = t)) w.orbs

/-- Shape discipline the `Wavefunction` constructor guarantees for a valid
configuration: at least one spin channel, exactly one k point, and a
band-count array of shape `(nspin, nkpt)`. -/
def Wfc.wellFormed (w : Wfc) : Prop :=
  1 ≤ w.nspin ∧ w.nkpt = 1 ∧ w.nbnd.length = w.nspin ∧ ∀ r ∈ w.nbnd, r.length = w.nkpt

instance (w : Wfc) : Decidable w.wellFormed := by
  unfold Wfc.wellFormed; infer_instance

/-- Models `int(key[i])` for a tuple key: positional access (`IndexError` when the
tuple is too short, which `_get_idx` catches and re-raises as the
index-out-of-range error) followed by integer coercion (`ValueError` on a
non-numeric component, re-raised as the invalid-key-type error). -/
def Wfc.fetchInt (w : Wfc) (xs : List PyVal) (i : Nat) : Except Err Int :=
  match xs[i]? with
  | none => .error (.indexOutOfRange w.nspin w.nkpt w.nbnd)
  | some (.intLike n) => .ok n
  | some .nonNumeric => .error .invalidKeyType

/-- The three `assert` statements of `WfcManager._get_idx`, including the
NumPy access `nbnd[ispin, ikpt]` inside the third one; both `AssertionError`
and `IndexError` are caught and re-raised as the index-out-of-range error
carrying the configured bounds. -/
def Wfc.checkTriple (w : Wfc) (a b c : Int) : Except Err Unit :=
  if decide (0 ≤ a) && decide (a ≤ (w.nspin : Int)) then
    if decide (0 ≤ b) && decide (b ≤ (w.nkpt : Int)) then
      match nbndGet w.nbnd a.toNat b.toNat with
      | some m =>
        if decide (0 ≤ c) && decide (c ≤ (m : Int)) then .ok ()
        else .error (.indexOutOfRange w.nspin w.nkpt w.nbnd)
      | none => .error (.indexOutOfRange w.nspin w.nkpt w.nbnd)
    else .error (.indexOutOfRange w.nspin w.nkpt w.nbnd)
  else .error (.indexOutOfRange w.nspin w.nkpt w.nbnd)

/-- The bound checks of `_get_idx` on an integer triple, as one test:
`0 <= spin <= nspin`, `0 <= kpt <= nkpt`, `0 <= band <= nbnd[spin, kpt]`
(the last requiring the `nbnd` entry to exist). -/
def tripleBoundsOk (w : Wfc) (a b c : Int) : Bool :=
  decide (0 ≤ a) && decide (a ≤ (w.nspin : Int)) &&
  (decide (0 ≤ b) && decide (b ≤ (w.nkpt : Int))) &&
  (match nbndGet w.nbnd a.toNat b.toNat with
   | some m => decide (0 ≤ c) && decide (c ≤ (m : Int))
   | none => false)

/-- Models `WfcManager._get_idx`: an integer key is used directly; otherwise the
key's first three components are coerced to integers, bound-checked, and
resolved through `skb2idx`, whose miss value `None` becomes the dictionary
key. -/
def Wfc.getIdx (w : Wfc) : Key → Except Err (Option Int)
  | .intKey n => .ok (some n)
  | .tupleKey xs =>
    match w.fetchInt xs 0 with
    | .error e => .error e
    | .ok a =>
      match w.fetchInt xs 1 with
      | .error e => .error e
      | .ok b =>
        match w.fetchInt xs 2 with
        | .error e => .error e
        | .ok c =>
          match w.checkTriple a b c with
          | .error e => .error e
          | .ok _ => .ok ((w.skb2idx (a.toNat, b.toNat, c.toNat)).map fun i => (i : Int))

/-- Models the `WfcManager` state: the dictionary `qty` from resolved keys to stored
values, plus the transform applied on write. Resolved keys are the results of
`_get_idx` — integers, or Python `None` when `skb2idx` misses — so the
dictionary is keyed by `Option Int`. -/
structure WfcManager (V : Type) where
  transform : V → Except Err V
  qty : Option Int → Option V

/-- Models `WfcManager.__getitem__`: resolve the key with `_get_idx`, then look it up
in `qty`; a missing entry is the dict `KeyError`. -/
def WfcManager.getItem {V : Type} (m : WfcManager V) (w : Wfc) (key : Key) : Except Err V :=
  match w.getIdx key with
  | .error e => .error e
  | .ok idx =>
    match m.qty idx with
    | some v => .ok v
    | none => .error .keyNotFound

/-- Models `WfcManager.__setitem__`: resolve the key, apply the transform, store the
result, overwriting any prior entry. A failing transform (the
`AssertionError` of `normalize`) propagates and nothing is stored. -/
def WfcManager.setItem {V : Type} (m : WfcManager V) (w : Wfc) (key : Key) (v : V) :
    Except Err (WfcManager V) :=
  match w.getIdx key with
  | .error e => .error e
  | .ok idx =>
    match m.transform v with
    | .error e => .error e
    | .ok tv => .ok ⟨m.transform, fun j => if j = idx then some tv else m.qty j⟩

/-- Models `WfcManager.indices`: the set of populated dictionary keys. -/
def WfcManager.indices {V : Type} (m : WfcManager V) : Set (Option Int) :=
  {i | (m.qty i).isSome}

/-- A NumPy array as stored in the managers: its shape together with its
entries, indexed by grid point (entries outside the shape are irrelevant). -/
structure Field3 where
  shape : Nat × Nat × Nat
  data : Nat → Nat → Nat → ℂ

/-- The slice of the `FFTGrid` collaborator this core reads: the three axis
extents and the total point count `N`. -/
structure Grid where
  n1 : Nat
  n2 : Nat
  n3 : Nat
  N : Nat
  deriving DecidableEq

/-- The slice of the `Sample` collaborator this core reads: the cell volume
`omega`. -/
structure Sample where
  omega : ℝ

/-- Models `np.sum(np.abs(psir) ** 2)`: the sum of squared magnitudes over the
array. -/
noncomputable def fieldNormSq (f : Field3) : ℝ :=
  ∑ i ∈ Finset.range f.shape.1, ∑ j ∈ Finset.range f.shape.2.1,
    ∑ k ∈ Finset.range f.shape.2.2, Complex.abs (f.data i j k) ^ 2

/-- Models `Wavefunction.normalize`: assert that the array has the wavefunction
grid's shape, then divide it by `sqrt(sum(|psir|^2) * omega / N)`. The failed
assertion is the `shapeMismatch` error. -/
noncomputable def normalize (sample : Sample) (wgrid : Grid) (psir : Field3) : Except Err Field3 :=
  if psir.shape = (wgrid.n1, wgrid.n2, wgrid.n3) then
    .ok ⟨psir.shape, fun i j k =>
      psir.data i j k / ((Real.sqrt (fieldNormSq psir * sample.omega / wgrid.N) : ℝ) : ℂ)⟩
  else .error .shapeMismatch

/-- The `psi_g` manager as the constructor builds it: empty, with the default
identity transform. -/
def psiGInit {V : Type} : WfcManager V := ⟨fun v => .ok v, fun _ => none⟩

/-- The `psi_r` manager as the constructor builds it: empty, with the
`normalize` transform. -/
noncomputable def psiRInit (sample : Sample) (wgrid : Grid) : WfcManager Field3 :=
  ⟨normalize sample wgrid, fun _ => none⟩

/-- Errors the `Wavefunction` constructor can raise: the
`assert nkpt == 1` (unsupported configuration), the
`assert self.nbnd.shape == (nspin, nkpt)`, and the NumPy errors raised while
filling the explicit occupation array (a missing channel row, or a slice
assignment whose sizes cannot broadcast). -/
inductive CErr where
  | unsupportedConfiguration
  | nbndShapeMismatch
  | occError
  deriving DecidableEq

/-- The `nbnd` constructor argument: a single integer (`int(nbnd)` succeeds
and is broadcast) or a per-channel array. -/
inductive NbndInput where
  | uniform (n : Nat)
  | perChannel (a : List (List Nat))
  deriving DecidableEq

/-- The `occ` constructor argument: a one-dimensional sequence
(`occ.ndim == 1`) or an explicit per-channel structure. -/
inductive OccInput where
  | oneDim (v : List ℚ)
  | perChannel (vv : List (List (List ℚ)))
  deriving DecidableEq

/-- Truncation toward zero: the NumPy cast of a float value assigned into an
`int`-dtype array. -/
def ratTrunc (q : ℚ) : ℤ := Int.tdiv q.num (q.den : ℤ)

/-- Models `np.max(self.nbnd)`. -/
def maxNbnd (nbnd : List (List Nat)) : Nat :=
  (nbnd.map fun r => r.foldr max 0).foldr max 0

/-- The NumPy slice assignment `occ[ispin, ikpt, 0:nbnd] = row[0:nbnd]` into a
row of a zero-initialized `int`-dtype array of width `m = np.max(nbnd)`: the
right-hand side must have exactly `nb` entries, or a single entry (which
broadcasts); each assigned value is truncated toward zero by the dtype, and
positions past `nb` keep their initial zero. -/
def sliceAssign (m nb : Nat) (row : List ℚ) : Except CErr (List ℚ) :=
  if (row.take nb).length = nb then
    .ok ((List.range m).map fun b =>
      if b < nb then ((ratTrunc ((row.take nb).getD b 0) : ℤ) : ℚ) else 0)
  else if (row.take nb).length = 1 then
    .ok ((List.range m).map fun b =>
      if b < nb then ((ratTrunc ((row.take nb).getD 0 0) : ℤ) : ℚ) else 0)
  else .error .occError

/-- Error-propagating map over a list: the loop structure of the constructor's
occupation-filling code, where the first raised error aborts construction. -/
def exceptMapList {ε α β : Type} (f : α → Except ε β) : List α → Except ε (List β)
  | [] => .ok []
  | x :: xs =>
    match f x with
    | .error e => .error e
    | .ok y =>
      match exceptMapList f xs with
      | .error e => .error e
      | .ok ys => .ok (y :: ys)

/-- Constructor lines normalizing `nbnd`: a scalar is broadcast to shape
`(nspin, nkpt)`; an array must already have exactly that shape. -/
def mkNbnd (nspin nkpt : Nat) : NbndInput → Except CErr (List (List Nat))
  | .uniform n => .ok (List.replicate nspin (List.replicate nkpt n))
  | .perChannel a =>
    if a.length = nspin ∧ ∀ r ∈ a, r.length = nkpt then .ok a
    else .error .nbndShapeMismatch

/-- One iteration of the occupation-filling loop: fetch `occ[ispin, ikpt]`
(a NumPy `IndexError` when the channel row is missing) and slice-assign it
into the corresponding row of the `int`-dtype array. -/
def occChannel (nbnd : List (List Nat)) (vv : List (List (List ℚ))) (s k : Nat) :
    Except CErr (List ℚ) :=
  match vv[s]? with
  | none => .error CErr.occError
  | some rows =>
    match rows[k]? with
    | none => .error CErr.occError
    | some row => sliceAssign (maxNbnd nbnd) (nbndVal nbnd s k) row

/-- Constructor lines normalizing `occ`: a 1D sequence is tiled over every
`(spin, kpoint)` channel unchanged; an explicit structure is copied channel by
channel into a zero-initialized `int`-dtype array of width `np.max(nbnd)`,
sliced to each channel's own band count. The Bool records whether the stored
array has `int` dtype. -/
def mkOcc (nspin nkpt : Nat) (nbnd : List (List Nat)) :
    OccInput → Except CErr (List (List (List ℚ)) × Bool)
  | .oneDim v => .ok (List.replicate nspin (List.replicate nkpt v), false)
  | .perChannel vv =>
    match exceptMapList (fun s =>
      exceptMapList (fun k => occChannel nbnd vv s k) (List.range nkpt))
      (List.range nspin) with
    | .error e => .error e
    | .ok occ => .ok (occ, true)

/-- Models `Wavefunction.__init__`, the parts this core owns: `assert nkpt == 1`
first, then the `nbnd` normalization, then the occupation array; the index
maps and the two managers are derived from the resulting state. -/
def mkWavefunction (nspin nkpt : Nat) (nbndIn : NbndInput) (occIn : OccInput) :
    Except CErr Wfc :=
  if nkpt = 1 then
    match mkNbnd nspin nkpt nbndIn with
    | .error e => .error e
    | .ok nbnd =>
      match mkOcc nspin nkpt nbnd occIn with
      | .error e => .error e
      | .ok (occ, d) => .ok ⟨nspin, nkpt, nbnd, occ, d⟩
  else .error .unsupportedConfiguration

/-! ### Generic list lemmas for the index maps -/

theorem listFindIdx_eq_some {α : Type} {p : α → Bool} :
    ∀ {l : List α} {i : Nat}, listFindIdx p l = some i →
      ∃ a, l[i]? = some a ∧ p a = true := by
  intro l
  induction l with
  | nil => intro i h; simp [listFindIdx] at h
  | cons x xs ih =>
    intro i h
    by_cases hx : p x
    · simp [listFindIdx, hx] at h
      subst h
      exact ⟨x, by simp, hx⟩
    · simp [listFindIdx, hx] at h
      obtain ⟨j, hj, hji⟩ := h
      obtain ⟨a, ha, hpa⟩ := ih hj
      exact ⟨a, by simpa [← hji] using ha, hpa⟩

theorem listFindIdx_eq_none {α : Type} {p : α → Bool} :
    ∀ {l : List α}, listFindIdx p l = none ↔ ∀ a ∈ l, p a = false := by
  intro l
  induction l with
  | nil => simp [listFindIdx]
  | cons x xs ih =>
    simp only [listFindIdx]
    by_cases hx : p x
    · simp [hx]
    · simp [hx, ih]

theorem listFindIdx_of_getElem {α : Type} [DecidableEq α] :
    ∀ {l : List α}, l.Nodup → ∀ {i : Nat} {a : α}, l[i]? = some a →
      listFindIdx (fun u => decide (u = a)) l = some i := by
  intro l
  induction l with
  | nil => intro _ i a h; simp at h
  | cons x xs ih =>
    intro hnd i a h
    rcases List.nodup_cons.mp hnd with ⟨hx, hxs⟩
    cases i with
    | zero =>
      simp at h
      simp [listFindIdx, h]
    | succ j =>
      simp at h
      have hax : ¬ (x = a) := by
        intro he
        exact hx (he ▸ (List.mem_iff_getElem?.mpr ⟨j, h⟩))
      simp [listFindIdx, hax, ih hxs h]

/-- Strict lexicographic order on `(spin, kpoint, band)` triples: spin major,
k-point next, band minor. -/
def lexLt (t u : Nat × Nat × Nat) : Prop :=
  t.1 < u.1 ∨ (t.1 = u.1 ∧ (t.2.1 < u.2.1 ∨ (t.2.1 = u.2.1 ∧ t.2.2 < u.2.2)))

instance (t u : Nat × Nat × Nat) : Decidable (lexLt t u) := by
  unfold lexLt; infer_instance

theorem lexLt_irrefl (t : Nat × Nat × Nat) : ¬ lexLt t t := by
  simp [lexLt]

theorem lexLt_asymm {t u : Nat × Nat × Nat} (h : lexLt t u) : ¬ lexLt u t := by
  rcases t with ⟨a, b, c⟩
  rcases u with ⟨d, e, f⟩
  simp only [lexLt] at *
  omega

theorem lexLt_ne {t u : Nat × Nat × Nat} (h : lexLt t u) : t ≠ u := by
  intro he
  exact lexLt_irrefl t (he ▸ h)

/-- A generic counting lemma: in a list that is strictly sorted by an
asymmetric irreflexive relation, the number of entries below the entry at
position `i` is exactly `i`. -/
theorem countP_of_pairwise {α : Type} {r : α → α → Prop} [DecidableRel r]
    (hirr : ∀ a, ¬ r a a) (hasym : ∀ a b, r a b → ¬ r b a) :
    ∀ {l : List α}, l.Pairwise r → ∀ {i : Nat} {t : α}, l[i]? = some t →
      l.countP (fun u => decide (r u t)) = i := by
  intro l
  induction l with
  | nil => intro _ i t h; simp at h
  | cons x xs ih =>
    intro hp i t h
    rcases List.pairwise_cons.mp hp with ⟨hx, hxs⟩
    cases i with
    | zero =>
      simp at h
      subst h
      rw [List.countP_cons]
      have h1 : xs.countP (fun u => decide (r u x)) = 0 :=
        List.countP_eq_zero.mpr (fun a ha => by simpa using hasym _ _ (hx a ha))
      simp [h1, hirr x]
    | succ j =>
      simp at h
      have ht : t ∈ xs := List.mem_iff_getElem?.mpr ⟨j, h⟩
      rw [List.countP_cons]
      simp [ih hxs h, hx t ht]

/-! ### Structure of the construction-order triple list -/

theorem mem_orbList {nspin nkpt : Nat} {nbnd : List (List Nat)}
    {t : Nat × Nat × Nat} :
    t ∈ orbList nspin nkpt nbnd ↔
      t.1 < nspin ∧ t.2.1 < nkpt ∧ t.2.2 < nbndVal nbnd t.1 t.2.1 := by
  rcases t with ⟨s, k, b⟩
  simp only [orbList, List.mem_flatMap, List.mem_map, List.mem_range]
  constructor
  · rintro ⟨s', hs', k', hk', b', hb', he⟩
    obtain ⟨h1, h2, h3⟩ : s' = s ∧ k' = k ∧ b' = b := by
      simpa [Prod.ext_iff] using he
    subst h1; subst h2; subst h3
    exact ⟨hs', hk', hb'⟩
  · rintro ⟨hs, hk, hb⟩
    exact ⟨s, hs, k, hk, b, hb, rfl⟩

theorem pairwise_orbList (nspin nkpt : Nat) (nbnd : List (List Nat)) :
    (orbList nspin nkpt nbnd).Pairwise lexLt := by
  unfold orbList
  rw [List.pairwise_flatMap]
  refine ⟨fun s hs => ?_, ?_⟩
  · rw [List.pairwise_flatMap]
    refine ⟨fun k hk => ?_, ?_⟩
    · rw [List.pairwise_map]
      refine List.Pairwise.imp ?_ (List.pairwise_lt_range _)
      intro b1 b2 hb
      exact Or.inr ⟨rfl, Or.inr ⟨rfl, hb⟩⟩
    · refine List.Pairwise.imp ?_ (List.pairwise_lt_range _)
      intro k1 k2 hk12 x hx y hy
      obtain ⟨b1, _, hx⟩ := List.mem_map.mp hx
      obtain ⟨b2, _, hy⟩ := List.mem_map.mp hy
      subst hx; subst hy
      exact Or.inr ⟨rfl, Or.inl hk12⟩
  · refine List.Pairwise.imp ?_ (List.pairwise_lt_range _)
    intro s1 s2 hs12 x hx y hy
    obtain ⟨k1, _, hx⟩ := List.mem_flatMap.mp hx
    obtain ⟨k2, _, hy⟩ := List.mem_flatMap.mp hy
    obtain ⟨b1, _, hx⟩ := List.mem_map.mp hx
    obtain ⟨b2, _, hy⟩ := List.mem_map.mp hy
    subst hx; subst hy
    exact Or.inl hs12

theorem nodup_orbList (nspin nkpt : Nat) (nbnd : List (List Nat)) :
    (orbList nspin nkpt nbnd).Nodup :=
  (pairwise_orbList nspin nkpt nbnd).imp fun h => lexLt_ne h

theorem sum_map_range (f : Nat → Nat) (n : Nat) :
    ((List.range n).map f).sum = ∑ i ∈ Finset.range n, f i := by
  induction n with
  | zero => simp
  | succ m ih => rw [List.range_succ]; simp [ih, Finset.sum_range_succ]

theorem length_orbList (nspin nkpt : Nat) (nbnd : List (List Nat)) :
    (orbList nspin nkpt nbnd).length =
      ∑ s ∈ Finset.range nspin, ∑ k ∈ Finset.range nkpt, nbndVal nbnd s k := by
  unfold orbList
  rw [List.length_flatMap, ← sum_map_range]
  congr 1
  refine List.map_congr_left fun s _ => ?_
  simp only [Function.comp]
  rw [List.length_flatMap, ← sum_map_range]
  congr 1
  refine List.map_congr_left fun k _ => ?_
  simp

/-! ### The two index maps are mutually inverse -/

theorem skb2idx_of_idx2skb (w : Wfc) {i : Nat} {t : Nat × Nat × Nat}
    (h : w.idx2skb i = some t) : w.skb2idx t = some i :=
  listFindIdx_of_getElem (nodup_orbList w.nspin w.nkpt w.nbnd) h

theorem idx2skb_of_skb2idx (w : Wfc) {i : Nat} {t : Nat × Nat × Nat}
    (h : w.skb2idx t = some i) : w.idx2skb i = some t := by
  obtain ⟨a, ha, hp⟩ := listFindIdx_eq_some h
  have : a = t := by simpa using hp
  subst this
  exact ha

theorem skb2idx_isSome_of_valid (w : Wfc) {s k b : Nat}
    (hs : s < w.nspin) (hk : k < w.nkpt) (hb : b < nbndVal w.nbnd s k) :
    ∃ i, w.skb2idx (s, k, b) = some i := by
  have hmem : (s, k, b) ∈ w.orbs := mem_orbList.mpr ⟨hs, hk, hb⟩
  obtain ⟨j, hj⟩ := List.mem_iff_getElem?.mp hmem
  exact ⟨j, skb2idx_of_idx2skb w hj⟩

/-! ### Key resolution lemmas -/

theorem checkTriple_eq (w : Wfc) (a b c : Int) :
    w.checkTriple a b c =
      if tripleBoundsOk w a b c then .ok ()
      else .error (.indexOutOfRange w.nspin w.nkpt w.nbnd) := by
  unfold Wfc.checkTriple tripleBoundsOk
  cases h : nbndGet w.nbnd a.toNat b.toNat <;>
    cases h1 : (decide (0 ≤ a) && decide (a ≤ (w.nspin : Int))) <;>
      cases h2 : (decide (0 ≤ b) && decide (b ≤ (w.nkpt : Int))) <;>
        simp [h, h1, h2]

theorem getIdx_intTriple (w : Wfc) (a b c : Int) :
    w.getIdx (.tupleKey [.intLike a, .intLike b, .intLike c]) =
      if tripleBoundsOk w a b c
      then .ok ((w.skb2idx (a.toNat, b.toNat, c.toNat)).map fun i => (i : Int))
      else .error (.indexOutOfRange w.nspin w.nkpt w.nbnd) := by
  unfold Wfc.getIdx
  simp only [Wfc.fetchInt, List.getElem?_cons_zero, List.getElem?_cons_succ]
  rw [checkTriple_eq]
  cases hB : tripleBoundsOk w a b c <;> simp [hB]

theorem fetchInt_errors (w : Wfc) (xs : List PyVal) (i : Nat) {e : Err}
    (h : w.fetchInt xs i = .error e) :
    e = .invalidKeyType ∨ e = .indexOutOfRange w.nspin w.nkpt w.nbnd := by
  unfold Wfc.fetchInt at h
  split at h <;> simp_all

theorem checkTriple_errors (w : Wfc) (a b c : Int) {e : Err}
    (h : w.checkTriple a b c = .error e) :
    e = .indexOutOfRange w.nspin w.nkpt w.nbnd := by
  rw [checkTriple_eq] at h
  split at h <;> simp_all

theorem getIdx_errors (w : Wfc) (key : Key) {e : Err}
    (h : w.getIdx key = .error e) :
    e = .invalidKeyType ∨ e = .indexOutOfRange w.nspin w.nkpt w.nbnd := by
  cases key with
  | intKey n => simp [Wfc.getIdx] at h
  | tupleKey xs =>
    simp only [Wfc.getIdx] at h
    cases h0 : w.fetchInt xs 0 with
    | error e0 =>
      simp only [h0] at h
      cases h
      exact fetchInt_errors w xs 0 h0
    | ok a =>
      simp only [h0] at h
      cases h1 : w.fetchInt xs 1 with
      | error e1 =>
        simp only [h1] at h
        cases h
        exact fetchInt_errors w xs 1 h1
      | ok b =>
        simp only [h1] at h
        cases h2 : w.fetchInt xs 2 with
        | error e2 =>
          simp only [h2] at h
          cases h
          exact fetchInt_errors w xs 2 h2
        | ok c =>
          simp only [h2] at h
          cases h3 : w.checkTriple a b c with
          | error e3 =>
            simp only [h3] at h
            cases h
            exact Or.inr (checkTriple_errors w a b c h3)
          | ok u =>
            simp only [h3] at h
            cases h

/-! ### Manager lemmas -/

theorem getItem_error_of_getIdx {V : Type} (m : WfcManager V) (w : Wfc)
    (key : Key) {e : Err} (h : w.getIdx key = .error e) :
    m.getItem w key = .error e := by
  unfold WfcManager.getItem
  rw [h]

theorem setItem_error_of_getIdx {V : Type} (m : WfcManager V) (w : Wfc)
    (key : Key) (v : V) {e : Err} (h : w.getIdx key = .error e) :
    m.setItem w key v = .error e := by
  unfold WfcManager.setItem
  rw [h]

theorem setItem_getItem {V : Type} (m : WfcManager V) (w : Wfc) (key : Key)
    (v : V) (idx : Option Int) (tv : V)
    (hres : w.getIdx key = .ok idx) (htr : m.transform v = .ok tv) :
    m.setItem w key v =
      .ok ⟨m.transform, fun j => if j = idx then some tv else m.qty j⟩ ∧
    WfcManager.getItem ⟨m.transform, fun j => if j = idx then some tv else m.qty j⟩ w key
      = .ok tv := by
  constructor
  · unfold WfcManager.setItem
    rw [hres, htr]
  · unfold WfcManager.getItem
    rw [hres]
    simp

/-! ### Constructor lemmas -/

theorem exceptMapList_ne_error {ε α β : Type} (f : α → Except ε β) (e : ε)
    (hf : ∀ x, f x ≠ .error e) : ∀ (l : List α), exceptMapList f l ≠ .error e := by
  intro l
  induction l with
  | nil => simp [exceptMapList]
  | cons x xs ih =>
    unfold exceptMapList
    cases hx : f x with
    | error e2 =>
      intro hcon
      injection hcon with h2
      subst h2
      exact hf x hx
    | ok y =>
      cases hmap : exceptMapList f xs with
      | error e2 =>
        intro hcon
        injection hcon with h2
        subst h2
        exact ih hmap
      | ok ys => simp

theorem exceptMapList_ok {ε α β : Type} (f : α → Except ε β) (g : α → β) :
    ∀ (l : List α), (∀ x ∈ l, f x = .ok (g x)) →
      exceptMapList f l = .ok (l.map g) := by
  intro l
  induction l with
  | nil => intro _; simp [exceptMapList]
  | cons x xs ih =>
    intro h
    unfold exceptMapList
    rw [h x (by simp), ih (fun y hy => h y (by simp [hy]))]
    rfl

theorem exceptMapList_error_mem {ε α β : Type} (f : α → Except ε β) :
    ∀ {l : List α} {e : ε}, exceptMapList f l = .error e → ∃ x ∈ l, f x = .error e := by
  intro l
  induction l with
  | nil => intro e h; simp [exceptMapList] at h
  | cons x xs ih =>
    intro e h
    unfold exceptMapList at h
    cases hx : f x with
    | error e2 =>
      simp only [hx] at h
      cases h
      exact ⟨x, by simp, hx⟩
    | ok y =>
      simp only [hx] at h
      cases hmap : exceptMapList f xs with
      | error e2 =>
        simp only [hmap] at h
        cases h
        obtain ⟨z, hz, hfz⟩ := ih hmap
        exact ⟨z, by simp [hz], hfz⟩
      | ok ys =>
        simp only [hmap] at h
        cases h

theorem sliceAssign_errors (m nb : Nat) (row : List ℚ) {e : CErr}
    (h : sliceAssign m nb row = .error e) : e = .occError := by
  unfold sliceAssign at h
  split at h
  · simp_all
  · split at h <;> simp_all

theorem occChannel_errors (nbnd : List (List Nat)) (vv : List (List (List ℚ)))
    (s k : Nat) {e : CErr} (h : occChannel nbnd vv s k = .error e) :
    e = .occError := by
  unfold occChannel at h
  split at h
  · simp_all
  · split at h
    · simp_all
    · exact sliceAssign_errors _ _ _ h

theorem mkNbnd_errors (nspin nkpt : Nat) (i : NbndInput) {e : CErr}
    (h : mkNbnd nspin nkpt i = .error e) : e = .nbndShapeMismatch := by
  cases i with
  | uniform n => simp [mkNbnd] at h
  | perChannel a =>
    simp only [mkNbnd] at h
    split at h <;> simp_all

theorem mkOcc_errors (nspin nkpt : Nat) (nbnd : List (List Nat)) (o : OccInput)
    {e : CErr} (h : mkOcc nspin nkpt nbnd o = .error e) : e = .occError := by
  cases o with
  | oneDim v => simp [mkOcc] at h
  | perChannel vv =>
    simp only [mkOcc] at h
    cases hm : exceptMapList (fun s =>
        exceptMapList (fun k => occChannel nbnd vv s k) (List.range nkpt))
        (List.range nspin) with
    | error e2 =>
      simp only [hm] at h
      cases h
      obtain ⟨s, _, hs⟩ := exceptMapList_error_mem _ hm
      obtain ⟨k, _, hk⟩ := exceptMapList_error_mem _ hs
      exact occChannel_errors nbnd vv s k hk
    | ok occ =>
      simp only [hm] at h
      cases h

/-- The slice assignment `sliceAssign` succeeds elementwise when the supplied row covers the
channel's band count. -/
theorem sliceAssign_ok (m nb : Nat) (row : List ℚ) (h : nb ≤ row.length) :
    sliceAssign m nb row = .ok ((List.range m).map fun b =>
      if b < nb then ((ratTrunc (row.getD b 0) : ℤ) : ℚ) else 0) := by
  unfold sliceAssign
  have hlen : (row.take nb).length = nb := by
    simp [List.length_take]
    omega
  rw [if_pos hlen]
  congr 1
  refine List.map_congr_left fun b _ => ?_
  by_cases hb : b < nb
  · have hgd : (row.take nb).getD b 0 = row.getD b 0 := by
      rw [List.getD_eq_getElem?_getD, List.getD_eq_getElem?_getD, List.getElem?_take]
      simp [hb]
    simp [hb, hgd]
  · simp [hb]

theorem getElem_map_range {β : Type} (f : Nat → β) {n i : Nat} (h : i < n) :
    ((List.range n).map f)[i]? = some (f i) := by
  rw [List.getElem?_map, List.getElem?_range h]
  rfl

/-- The row the explicit occupation input supplies for channel `(s, k)`. -/
def occRow (vv : List (List (List ℚ))) (s k : Nat) : List ℚ :=
  ((vv[s]?).bind fun rs => rs[k]?).getD []

theorem occChannel_ok (nbnd : List (List Nat)) (vv : List (List (List ℚ)))
    (s k : Nat) (hsome : ((vv[s]?).bind fun rs => rs[k]?).isSome)
    (hlen : nbndVal nbnd s k ≤ (occRow vv s k).length) :
    occChannel nbnd vv s k = .ok ((List.range (maxNbnd nbnd)).map fun b =>
      if b < nbndVal nbnd s k
      then ((ratTrunc ((occRow vv s k).getD b 0) : ℤ) : ℚ) else 0) := by
  unfold occChannel
  cases hs : vv[s]? with
  | none => simp [hs] at hsome
  | some rows =>
    simp only [hs]
    cases hk : rows[k]? with
    | none => simp [hs, hk] at hsome
    | some row =>
      simp only [hk]
      have hrow : occRow vv s k = row := by simp [occRow, hs, hk]
      rw [hrow] at hlen
      rw [sliceAssign_ok _ _ row hlen, hrow]

/-- The stored occupation array produced by the explicit (`ndim > 1`) branch,
written as an explicit nested map. -/
def occExplicit (nspin nkpt : Nat) (nbnd : List (List Nat))
    (vv : List (List (List ℚ))) : List (List (List ℚ)) :=
  (List.range nspin).map fun s => (List.range nkpt).map fun k =>
    (List.range (maxNbnd nbnd)).map fun b =>
      if b < nbndVal nbnd s k
      then ((ratTrunc ((occRow vv s k).getD b 0) : ℤ) : ℚ) else 0

theorem mkOcc_perChannel_ok (nspin nkpt : Nat) (nbnd : List (List Nat))
    (vv : List (List (List ℚ)))
    (hch : ∀ s < nspin, ∀ k < nkpt,
      ((vv[s]?).bind fun rs => rs[k]?).isSome ∧
      nbndVal nbnd s k ≤ (occRow vv s k).length) :
    mkOcc nspin nkpt nbnd (.perChannel vv) =
      .ok (occExplicit nspin nkpt nbnd vv, true) := by
  simp only [mkOcc]
  have hmap : exceptMapList (fun s =>
      exceptMapList (fun k => occChannel nbnd vv s k) (List.range nkpt))
      (List.range nspin) = .ok (occExplicit nspin nkpt nbnd vv) := by
    unfold occExplicit
    refine exceptMapList_ok _ _ _ fun s hs => ?_
    rw [List.mem_range] at hs
    refine exceptMapList_ok _ _ _ fun k hk => ?_
    rw [List.mem_range] at hk
    exact occChannel_ok nbnd vv s k (hch s hs k hk).1 (hch s hs k hk).2
  simp only [hmap]

theorem mkWavefunction_ok_struct (nspin : Nat) (nbndIn : NbndInput)
    (occIn : OccInput) (nbnd : List (List Nat)) (occ : List (List (List ℚ)))
    (d : Bool) (hnb : mkNbnd nspin 1 nbndIn = .ok nbnd)
    (hocc : mkOcc nspin 1 nbnd occIn = .ok (occ, d)) :
    mkWavefunction nspin 1 nbndIn occIn = .ok ⟨nspin, 1, nbnd, occ, d⟩ := by
  unfold mkWavefunction
  rw [if_pos rfl]
  simp only [hnb, hocc]

/-! ### Boundary and entry-access lemmas -/

theorem skb2idx_boundary_none (w : Wfc) (s k : Nat) :
    w.skb2idx (s, k, nbndVal w.nbnd s k) = none := by
  apply listFindIdx_eq_none.mpr
  intro a ha
  simp only [decide_eq_false_iff_not]
  intro he
  subst he
  have hm := mem_orbList.mp ha
  simp only at hm
  omega

theorem nbndGet_isSome (nbnd : List (List Nat)) {s k : Nat}
    (hs : s < nbnd.length) (hk : ∀ r ∈ nbnd, k < r.length) :
    nbndGet nbnd s k = some (nbndVal nbnd s k) := by
  unfold nbndVal nbndGet
  have hk2 : k < nbnd[s].length := hk _ (List.getElem_mem hs)
  simp only [List.getElem?_eq_getElem hs, List.getElem?_eq_getElem hk2,
    Option.getD_some]

theorem tripleBoundsOk_boundary (w : Wfc) (hwf : w.wellFormed) {s : Nat}
    (hs : s < w.nspin) :
    tripleBoundsOk w (s : Int) 0 ((nbndVal w.nbnd s 0) : Int) = true := by
  obtain ⟨h1, h2, hlen, hrow⟩ := hwf
  have hg : nbndGet w.nbnd s 0 = some (nbndVal w.nbnd s 0) :=
    nbndGet_isSome w.nbnd (by omega) (fun r hr => by rw [hrow r hr]; omega)
  unfold tripleBoundsOk
  rw [show ((s : Int)).toNat = s from Int.toNat_natCast s,
      show ((0 : Int)).toNat = 0 from rfl, hg]
  simp only [Bool.and_eq_true, decide_eq_true_eq]
  refine ⟨⟨⟨by omega, by omega⟩, by omega, by omega⟩, by omega, by omega⟩

theorem getIdx_boundary (w : Wfc) (hwf : w.wellFormed) {s : Nat}
    (hs : s < w.nspin) :
    w.getIdx (.tupleKey [.intLike s, .intLike 0,
      .intLike (nbndVal w.nbnd s 0)]) = .ok none := by
  rw [getIdx_intTriple, if_pos (tripleBoundsOk_boundary w hwf hs)]
  rw [show ((s : Int)).toNat = s from Int.toNat_natCast s,
      show ((0 : Int)).toNat = 0 from rfl,
      show (((nbndVal w.nbnd s 0) : Int)).toNat = nbndVal w.nbnd s 0 from
        Int.toNat_natCast _]
  rw [skb2idx_boundary_none]
  rfl

/-- Entry `occ[s, k, b]` of the stored occupation array (0 outside range). -/
def Wfc.occAt (w : Wfc) (s k b : Nat) : ℚ :=
  ((w.occ.getD s []).getD k []).getD b 0

theorem getD_map_range {β : Type} (f : Nat → β) {n i : Nat} (d : β) (h : i < n) :
    ((List.range n).map f).getD i d = f i := by
  rw [List.getD_eq_getElem?_getD, getElem_map_range f h]
  rfl

theorem le_foldr_max : ∀ (l : List Nat), ∀ x ∈ l, x ≤ l.foldr max 0 := by
  intro l
  induction l with
  | nil => simp
  | cons y ys ih =>
    intro x hx
    rcases List.mem_cons.mp hx with h | h
    · subst h
      simp only [List.foldr_cons]
      exact le_max_left _ _
    · calc x ≤ ys.foldr max 0 := ih x h
        _ ≤ max y (ys.foldr max 0) := le_max_right _ _

theorem nbndVal_le_maxNbnd (nbnd : List (List Nat)) (s k : Nat) :
    nbndVal nbnd s k ≤ maxNbnd nbnd := by
  unfold nbndVal nbndGet maxNbnd
  cases hs : nbnd[s]? with
  | none => simp [hs]
  | some row =>
    simp only [hs]
    cases hk : row[k]? with
    | none => simp [hk]
    | some m =>
      simp only [hk, Option.getD_some]
      have hrow : row ∈ nbnd := by
        obtain ⟨h, he⟩ := List.getElem?_eq_some.mp hs
        exact he ▸ List.getElem_mem h
      have hmr : m ∈ row := by
        obtain ⟨h, he⟩ := List.getElem?_eq_some.mp hk
        exact he ▸ List.getElem_mem h
      calc m ≤ row.foldr max 0 := le_foldr_max row m hmr
        _ ≤ (nbnd.map fun r => r.foldr max 0).foldr max 0 :=
          le_foldr_max _ _ (List.mem_map.mpr ⟨row, hrow, rfl⟩)

/-! ### Constructor inversion and dtype lemmas -/

theorem mkWavefunction_ok_inv {nspin nkpt : Nat} {nbndIn : NbndInput}
    {occIn : OccInput} {w : Wfc}
    (h : mkWavefunction nspin nkpt nbndIn occIn = .ok w) :
    nkpt = 1 ∧ ∃ nbnd occ d, mkNbnd nspin nkpt nbndIn = .ok nbnd ∧
      mkOcc nspin nkpt nbnd occIn = .ok (occ, d) ∧
      w = ⟨nspin, nkpt, nbnd, occ, d⟩ := by
  unfold mkWavefunction at h
  split at h
  case isTrue hk =>
    subst hk
    refine ⟨rfl, ?_⟩
    cases hnb : mkNbnd nspin 1 nbndIn with
    | error e => simp only [hnb] at h; cases h
    | ok nbnd =>
      simp only [hnb] at h
      cases hocc : mkOcc nspin 1 nbnd occIn with
      | error e => simp only [hocc] at h; cases h
      | ok p =>
        obtain ⟨occ, d⟩ := p
        simp only [hocc] at h
        cases h
        exact ⟨nbnd, occ, d, rfl, hocc, rfl⟩
  case isFalse hk => cases h

theorem mkOcc_oneDim_inv {nspin nkpt : Nat} {nbnd : List (List Nat)}
    {v : List ℚ} {occ : List (List (List ℚ))} {d : Bool}
    (h : mkOcc nspin nkpt nbnd (.oneDim v) = .ok (occ, d)) :
    occ = List.replicate nspin (List.replicate nkpt v) ∧ d = false := by
  simp only [mkOcc] at h
  cases h
  exact ⟨rfl, rfl⟩

theorem mkOcc_perChannel_inv {nspin nkpt : Nat} {nbnd : List (List Nat)}
    {vv : List (List (List ℚ))} {occ : List (List (List ℚ))} {d : Bool}
    (h : mkOcc nspin nkpt nbnd (.perChannel vv) = .ok (occ, d)) :
    d = true ∧ exceptMapList (fun s =>
      exceptMapList (fun k => occChannel nbnd vv s k) (List.range nkpt))
      (List.range nspin) = .ok occ := by
  simp only [mkOcc] at h
  cases hm : exceptMapList (fun s =>
      exceptMapList (fun k => occChannel nbnd vv s k) (List.range nkpt))
      (List.range nspin) with
  | error e => simp only [hm] at h; cases h
  | ok occ2 =>
    simp only [hm] at h
    cases h
    exact ⟨rfl, rfl⟩

theorem exceptMapList_ok_forall {ε α β : Type} (f : α → Except ε β)
    (P : β → Prop) (hP : ∀ x y, f x = .ok y → P y) :
    ∀ {l : List α} {ys : List β}, exceptMapList f l = .ok ys → ∀ y ∈ ys, P y := by
  intro l
  induction l with
  | nil =>
    intro ys h
    simp only [exceptMapList] at h
    cases h
    simp
  | cons x xs ih =>
    intro ys h
    unfold exceptMapList at h
    cases hx : f x with
    | error e => simp only [hx] at h; cases h
    | ok y =>
      simp only [hx] at h
      cases hmap : exceptMapList f xs with
      | error e => simp only [hmap] at h; cases h
      | ok ys2 =>
        simp only [hmap] at h
        cases h
        intro z hz
        rcases List.mem_cons.mp hz with hz | hz
        · exact hz ▸ hP x y hx
        · exact ih hmap z hz

theorem sliceAssign_entries {m nb : Nat} {row : List ℚ} {ys : List ℚ}
    (h : sliceAssign m nb row = .ok ys) :
    ∀ q ∈ ys, ∃ z : ℤ, q = (z : ℚ) := by
  unfold sliceAssign at h
  split at h
  · cases h
    intro q hq
    obtain ⟨b, -, hb⟩ := List.mem_map.mp hq
    by_cases hlt : b < nb
    · exact ⟨_, by simp [hlt] at hb; exact hb.symm⟩
    · refine ⟨0, ?_⟩
      simp [hlt] at hb
      simp [← hb]
  · split at h
    · cases h
      intro q hq
      obtain ⟨b, -, hb⟩ := List.mem_map.mp hq
      by_cases hlt : b < nb
      · exact ⟨_, by simp [hlt] at hb; exact hb.symm⟩
      · refine ⟨0, ?_⟩
        simp [hlt] at hb
        simp [← hb]
    · cases h

theorem occChannel_entries {nbnd : List (List Nat)} {vv : List (List (List ℚ))}
    {s k : Nat} {ys : List ℚ} (h : occChannel nbnd vv s k = .ok ys) :
    ∀ q ∈ ys, ∃ z : ℤ, q = (z : ℚ) := by
  unfold occChannel at h
  split at h
  · cases h
  · split at h
    · cases h
    · exact sliceAssign_entries h

theorem occAt_int (w : Wfc)
    (hocc : ∀ a ∈ w.occ, ∀ r ∈ a, ∀ q ∈ r, ∃ z : ℤ, q = (z : ℚ)) (s k b : Nat) :
    ∃ z : ℤ, w.occAt s k b = (z : ℚ) := by
  unfold Wfc.occAt
  simp only [List.getD_eq_getElem?_getD]
  cases ha : w.occ[s]? with
  | none => exact ⟨0, by simp [ha]⟩
  | some a =>
    have hamem : a ∈ w.occ := by
      obtain ⟨hl, he⟩ := List.getElem?_eq_some.mp ha
      exact he ▸ List.getElem_mem hl
    simp only [ha, Option.getD_some]
    cases hr : a[k]? with
    | none => exact ⟨0, by simp [hr]⟩
    | some r =>
      have hrmem : r ∈ a := by
        obtain ⟨hl, he⟩ := List.getElem?_eq_some.mp hr
        exact he ▸ List.getElem_mem hl
      simp only [hr, Option.getD_some]
      cases hq : r[b]? with
      | none => exact ⟨0, by simp [hq]⟩
      | some q =>
        have hqmem : q ∈ r := by
          obtain ⟨hl, he⟩ := List.getElem?_eq_some.mp hq
          exact he ▸ List.getElem_mem hl
        simp only [hq, Option.getD_some]
        exact hocc a hamem r hrmem q hqmem

/-! ### Concrete configurations used in examples and witnesses -/

/-- The spec's example configuration: nspin = 2, nkpt = 1, uniform nbnd = 3. -/
def wEx : Wfc := ⟨2, 1, [[3], [3]], [], false⟩

/-- A small configuration with unequal band counts, used in witnesses. -/
def wEx2 : Wfc := ⟨2, 1, [[3], [2]], [], false⟩

/-- A minimal configuration: nspin = 1, nkpt = 1, nbnd = 1. -/
def wMin : Wfc := ⟨1, 1, [[1]], [], false⟩

/-! ### Claims -/

/-- C1: for every valid configuration (nspin ≥ 1, nkpt = 1, and any
per-channel band counts of shape (nspin, nkpt)), the index maps built at
construction form a bijection: `idx2skb (skb2idx (s, k, b)) = (s, k, b)` for
every valid triple, with the index below `norb`, and
`skb2idx (idx2skb i) = i` for every internal index `i < norb`. -/
theorem c1_index_bijection (w : Wfc) (hwf : w.wellFormed) :
    (∀ s k b : Nat, s < w.nspin → k < w.nkpt → b < nbndVal w.nbnd s k →
      ∃ i, w.skb2idx (s, k, b) = some i ∧ i < w.norb ∧
        w.idx2skb i = some (s, k, b))
    ∧ (∀ i : Nat, i < w.norb →
      ∃ t, w.idx2skb i = some t ∧ w.skb2idx t = some i) := by
  constructor
  · intro s k b hs hk hb
    obtain ⟨i, hi⟩ := skb2idx_isSome_of_valid w hs hk hb
    have hget := idx2skb_of_skb2idx w hi
    obtain ⟨hlt, -⟩ := List.getElem?_eq_some.mp hget
    exact ⟨i, hi, hlt, hget⟩
  · intro i hi
    have hget : w.idx2skb i = some w.orbs[i] := List.getElem?_eq_getElem hi
    exact ⟨w.orbs[i], hget, skb2idx_of_idx2skb w hget⟩

/-- Witness for C1 at the concrete configuration `wEx2`
(nspin = 2, nkpt = 1, nbnd = [[3],[2]]). -/
theorem c1_index_bijection_witness :
    Wfc.wellFormed wEx2 ∧
    ((∀ s k b : Nat, s < wEx2.nspin → k < wEx2.nkpt → b < nbndVal wEx2.nbnd s k →
      ∃ i, wEx2.skb2idx (s, k, b) = some i ∧ i < wEx2.norb ∧
        wEx2.idx2skb i = some (s, k, b))
    ∧ (∀ i : Nat, i < wEx2.norb →
      ∃ t, wEx2.idx2skb i = some t ∧ wEx2.skb2idx t = some i)) :=
  ⟨by decide, c1_index_bijection wEx2 (by decide)⟩

/-- C2: internal indices are assigned spin-major, k-point-middle, band-minor,
ascending from 0 with no gaps: the construction list enumerates each valid
triple exactly once, each valid triple's internal index equals the number of
valid triples lexicographically preceding it, `norb` is the sum of the band
counts over all channels, and on the spec's example (nspin = 2, nkpt = 1,
nbnd = 3 uniform) norb = 6, skb2idx(1,0,2) = 5 and skb2idx(0,0,0) = 0. -/
theorem c2_index_order (w : Wfc) (hwf : w.wellFormed) :
    (w.orbs.Nodup ∧ ∀ t : Nat × Nat × Nat,
      t ∈ w.orbs ↔ t.1 < w.nspin ∧ t.2.1 < w.nkpt ∧
        t.2.2 < nbndVal w.nbnd t.1 t.2.1)
    ∧ (∀ s k b : Nat, s < w.nspin → k < w.nkpt → b < nbndVal w.nbnd s k →
      w.skb2idx (s, k, b) =
        some (w.orbs.countP fun u => decide (lexLt u (s, k, b))))
    ∧ w.norb = ∑ s ∈ Finset.range w.nspin, ∑ k ∈ Finset.range w.nkpt,
        nbndVal w.nbnd s k
    ∧ (wEx.norb = 6 ∧ wEx.skb2idx (1, 0, 2) = some 5 ∧
      wEx.skb2idx (0, 0, 0) = some 0) := by
  refine ⟨⟨nodup_orbList w.nspin w.nkpt w.nbnd, fun t => mem_orbList⟩,
    fun s k b hs hk hb => ?_, length_orbList w.nspin w.nkpt w.nbnd,
    by decide, by decide, by decide⟩
  obtain ⟨i, hi⟩ := skb2idx_isSome_of_valid w hs hk hb
  have hget := idx2skb_of_skb2idx w hi
  rw [hi]
  congr 1
  exact (countP_of_pairwise lexLt_irrefl (fun a b hab => lexLt_asymm hab)
    (pairwise_orbList w.nspin w.nkpt w.nbnd) hget).symm

/-- Witness for C2 at the concrete configuration `wEx2`. -/
theorem c2_index_order_witness :
    Wfc.wellFormed wEx2 ∧
    ((wEx2.orbs.Nodup ∧ ∀ t : Nat × Nat × Nat,
      t ∈ wEx2.orbs ↔ t.1 < wEx2.nspin ∧ t.2.1 < wEx2.nkpt ∧
        t.2.2 < nbndVal wEx2.nbnd t.1 t.2.1)
    ∧ (∀ s k b : Nat, s < wEx2.nspin → k < wEx2.nkpt → b < nbndVal wEx2.nbnd s k →
      wEx2.skb2idx (s, k, b) =
        some (wEx2.orbs.countP fun u => decide (lexLt u (s, k, b))))
    ∧ wEx2.norb = ∑ s ∈ Finset.range wEx2.nspin, ∑ k ∈ Finset.range wEx2.nkpt,
        nbndVal wEx2.nbnd s k
    ∧ (wEx.norb = 6 ∧ wEx.skb2idx (1, 0, 2) = some 5 ∧
      wEx.skb2idx (0, 0, 0) = some 0)) :=
  ⟨by decide, c2_index_order wEx2 (by decide)⟩

/-- A concrete all-ones field on a 1×1×1 grid, used in witnesses. -/
noncomputable def fOne : Field3 := ⟨(1, 1, 1), fun _ _ _ => 1⟩

/-- A concrete 1×1×1 grid with one point, used in witnesses. -/
def gOne : Grid := ⟨1, 1, 1, 1⟩

/-- A concrete sample of unit volume, used in witnesses. -/
def sOne : Sample := ⟨1⟩

/-- C3: for every store and every key that resolves to a valid internal
index, set followed by get with the same key returns the transform of the
written value: the identity for psi_g, and for a psi_r store the field
divided pointwise by `sqrt(sum(|v|^2 over the grid) * omega / N)`. -/
theorem c3_set_get (w : Wfc) {V : Type} (m : WfcManager V) (key : Key)
    (v tv : V) (i : Int) (smpl : Sample) (g : Grid) (mr : WfcManager Field3)
    (fkey : Key) (f : Field3) (j : Int)
    (hres : w.getIdx key = .ok (some i)) (hi : (i.toNat : Int) = i ∧ i.toNat < w.norb)
    (htr : m.transform v = .ok tv)
    (hmr : mr.transform = normalize smpl g)
    (hfres : w.getIdx fkey = .ok (some j))
    (hsh : f.shape = (g.n1, g.n2, g.n3)) :
    (∃ m2, m.setItem w key v = .ok m2 ∧ m2.getItem w key = .ok tv)
    ∧ (∃ mg2, WfcManager.setItem (psiGInit (V := V)) w key v = .ok mg2 ∧
        mg2.getItem w key = .ok v)
    ∧ (∃ mr2, mr.setItem w fkey f = .ok mr2 ∧
        mr2.getItem w fkey = .ok ⟨f.shape, fun a b c =>
          f.data a b c /
            ((Real.sqrt (fieldNormSq f * smpl.omega / g.N) : ℝ) : ℂ)⟩) := by
  refine ⟨?_, ?_, ?_⟩
  · obtain ⟨h1, h2⟩ := setItem_getItem m w key v (some i) tv hres htr
    exact ⟨_, h1, h2⟩
  · obtain ⟨h1, h2⟩ := setItem_getItem psiGInit w key v (some i) v hres rfl
    exact ⟨_, h1, h2⟩
  · have htr2 : mr.transform f = .ok ⟨f.shape, fun a b c =>
        f.data a b c /
          ((Real.sqrt (fieldNormSq f * smpl.omega / g.N) : ℝ) : ℂ)⟩ := by
      rw [hmr]
      unfold normalize
      rw [if_pos hsh]
    obtain ⟨h1, h2⟩ := setItem_getItem mr w fkey f (some j) _ hfres htr2
    exact ⟨_, h1, h2⟩

/-- Witness for C3: the identity store over ℚ and the psi_r store over the
unit grid, both at internal-index key 0 of the minimal configuration. -/
theorem c3_set_get_witness :
    wMin.getIdx (.intKey 0) = .ok (some 0)
    ∧ (((0 : Int).toNat : Int) = 0 ∧ (0 : Int).toNat < wMin.norb)
    ∧ fOne.shape = (gOne.n1, gOne.n2, gOne.n3)
    ∧ ((∃ m2, WfcManager.setItem (psiGInit (V := ℚ)) wMin (.intKey 0) 1 = .ok m2 ∧
        m2.getItem wMin (.intKey 0) = .ok 1)
    ∧ (∃ mg2, WfcManager.setItem (psiGInit (V := ℚ)) wMin (.intKey 0) 1 = .ok mg2 ∧
        mg2.getItem wMin (.intKey 0) = .ok 1)
    ∧ (∃ mr2, (psiRInit sOne gOne).setItem wMin (.intKey 0) fOne = .ok mr2 ∧
        mr2.getItem wMin (.intKey 0) = .ok ⟨fOne.shape, fun a b c =>
          fOne.data a b c /
            ((Real.sqrt (fieldNormSq fOne * sOne.omega / gOne.N) : ℝ) : ℂ)⟩)) :=
  ⟨rfl, ⟨rfl, by decide⟩, rfl,
    c3_set_get wMin (psiGInit (V := ℚ)) (.intKey 0) 1 1 0 sOne gOne
      (psiRInit sOne gOne) (.intKey 0) fOne 0 rfl ⟨rfl, by decide⟩ rfl rfl rfl rfl⟩

/-- C4: a 3-tuple key is validated against inclusive upper bounds
(0 ≤ spin ≤ nspin, 0 ≤ kpt ≤ nkpt, 0 ≤ band ≤ nbnd[spin, kpt]); whenever a
bound fails, both get and set fail with the index-out-of-range error
reporting the configured bounds (nspin, nkpt, nbnd); in particular lookup
with key (3, 0, 0) when nspin = 2 fails reporting bounds (2, 1, nbnd). -/
theorem c4_bounds_error {V : Type} (w : Wfc) (m : WfcManager V) (v : V)
    (a b c : Int) (h : tripleBoundsOk w a b c = false) :
    m.getItem w (.tupleKey [.intLike a, .intLike b, .intLike c]) =
      .error (.indexOutOfRange w.nspin w.nkpt w.nbnd)
    ∧ m.setItem w (.tupleKey [.intLike a, .intLike b, .intLike c]) v =
      .error (.indexOutOfRange w.nspin w.nkpt w.nbnd)
    ∧ (psiGInit (V := ℚ)).getItem wEx
        (.tupleKey [.intLike 3, .intLike 0, .intLike 0]) =
      .error (.indexOutOfRange 2 1 [[3], [3]]) := by
  have hidx : w.getIdx (.tupleKey [.intLike a, .intLike b, .intLike c]) =
      .error (.indexOutOfRange w.nspin w.nkpt w.nbnd) := by
    rw [getIdx_intTriple, h]
    rfl
  exact ⟨getItem_error_of_getIdx m w _ hidx,
    setItem_error_of_getIdx m w _ v hidx, rfl⟩

/-- Witness for C4: the spec's example (3, 0, 0) against nspin = 2. -/
theorem c4_bounds_error_witness :
    tripleBoundsOk wEx 3 0 0 = false
    ∧ ((psiGInit (V := ℚ)).getItem wEx
        (.tupleKey [.intLike 3, .intLike 0, .intLike 0]) =
      .error (.indexOutOfRange wEx.nspin wEx.nkpt wEx.nbnd)
    ∧ WfcManager.setItem (psiGInit (V := ℚ)) wEx
        (.tupleKey [.intLike 3, .intLike 0, .intLike 0]) 1 =
      .error (.indexOutOfRange wEx.nspin wEx.nkpt wEx.nbnd)
    ∧ (psiGInit (V := ℚ)).getItem wEx
        (.tupleKey [.intLike 3, .intLike 0, .intLike 0]) =
      .error (.indexOutOfRange 2 1 [[3], [3]])) :=
  ⟨by decide, c4_bounds_error wEx (psiGInit (V := ℚ)) 1 3 0 0 (by decide)⟩

/-- C5: construction with nkpt ≠ 1 fails immediately with the
unsupported-configuration error, before the nbnd array, occupations, index
maps or stores are built; construction with nkpt = 1 never raises that
error — any remaining failure is a different error kind. -/
theorem c5_nkpt_assert (nspin nkpt : Nat) (nbndIn : NbndInput)
    (occIn : OccInput) :
    (nkpt ≠ 1 → mkWavefunction nspin nkpt nbndIn occIn =
      .error .unsupportedConfiguration)
    ∧ (nkpt = 1 → mkWavefunction nspin nkpt nbndIn occIn ≠
      .error .unsupportedConfiguration) := by
  constructor
  · intro h
    unfold mkWavefunction
    rw [if_neg h]
  · intro h he
    subst h
    unfold mkWavefunction at he
    rw [if_pos rfl] at he
    cases hnb : mkNbnd nspin 1 nbndIn with
    | error e =>
      simp only [hnb] at he
      cases he
      exact CErr.noConfusion (mkNbnd_errors nspin 1 nbndIn hnb)
    | ok nbnd =>
      simp only [hnb] at he
      cases hocc : mkOcc nspin 1 nbnd occIn with
      | error e =>
        simp only [hocc] at he
        cases he
        exact CErr.noConfusion (mkOcc_errors nspin 1 nbnd occIn hocc)
      | ok p =>
        obtain ⟨occ, d⟩ := p
        simp only [hocc] at he
        cases he

/-- Witness for C5: nkpt = 2 fails with the unsupported-configuration error;
nkpt = 1 does not produce it. -/
theorem c5_nkpt_assert_witness :
    mkWavefunction 1 2 (.uniform 1) (.oneDim []) =
      .error .unsupportedConfiguration
    ∧ mkWavefunction 1 1 (.uniform 1) (.oneDim []) ≠
      .error .unsupportedConfiguration :=
  ⟨(c5_nkpt_assert 1 2 (.uniform 1) (.oneDim [])).1 (by decide),
    (c5_nkpt_assert 1 1 (.uniform 1) (.oneDim [])).2 rfl⟩

theorem fetchInt_ok (w : Wfc) (xs : List PyVal) (i : Nat) (n : Int)
    (h : xs[i]? = some (.intLike n)) : w.fetchInt xs i = .ok n := by
  unfold Wfc.fetchInt
  rw [h]

theorem fetchInt_nonNumeric (w : Wfc) (xs : List PyVal) (i : Nat)
    (h : xs[i]? = some .nonNumeric) :
    w.fetchInt xs i = .error .invalidKeyType := by
  unfold Wfc.fetchInt
  rw [h]

/-- C6 counterexample: the 2-element integer tuple key (0, 0) is not a
well-formed 3-tuple, but get on a concrete store fails with the
index-out-of-range error — the positional IndexError on key[2] is caught by
the same handler as failed bound asserts — not with the invalid-key-type
error the claim requires for such keys. -/
theorem c6_counterexample :
    wMin.getIdx (.tupleKey [.intLike 0, .intLike 0]) =
      .error (.indexOutOfRange 1 1 [[1]])
    ∧ (psiGInit (V := ℚ)).getItem wMin (.tupleKey [.intLike 0, .intLike 0]) =
      .error (.indexOutOfRange 1 1 [[1]])
    ∧ WfcManager.setItem (psiGInit (V := ℚ)) wMin
        (.tupleKey [.intLike 0, .intLike 0]) 1 =
      .error (.indexOutOfRange 1 1 [[1]])
    ∧ Err.indexOutOfRange 1 1 [[1]] ≠ Err.invalidKeyType :=
  ⟨rfl, rfl, rfl, fun h => Err.noConfusion h⟩

/-- C6 amended: a tuple key whose first non-int-coercible component sits at
one of the first three positions (all earlier components coercible) makes get
and set fail with the invalid-key-type error, distinct from
index-out-of-range; a too-short tuple of coercible components instead fails
with the index-out-of-range error. -/
theorem c6_amended_invalid_key {V : Type} (w : Wfc) (m : WfcManager V) (v : V)
    (xs : List PyVal) (j : Nat) (hj : j < 3)
    (hpre : ∀ i, i < j → ∃ n, xs[i]? = some (.intLike n))
    (hbad : xs[j]? = some .nonNumeric) :
    m.getItem w (.tupleKey xs) = .error .invalidKeyType
    ∧ m.setItem w (.tupleKey xs) v = .error .invalidKeyType
    ∧ (∀ (n1 n2 : Nat) (nb : List (List Nat)),
        Err.invalidKeyType ≠ Err.indexOutOfRange n1 n2 nb) := by
  have hidx : w.getIdx (.tupleKey xs) = .error .invalidKeyType := by
    simp only [Wfc.getIdx]
    interval_cases j
    · rw [fetchInt_nonNumeric w xs 0 hbad]
    · obtain ⟨n0, h0⟩ := hpre 0 (by omega)
      rw [fetchInt_ok w xs 0 n0 h0, fetchInt_nonNumeric w xs 1 hbad]
    · obtain ⟨n0, h0⟩ := hpre 0 (by omega)
      obtain ⟨n1, h1⟩ := hpre 1 (by omega)
      rw [fetchInt_ok w xs 0 n0 h0, fetchInt_ok w xs 1 n1 h1,
        fetchInt_nonNumeric w xs 2 hbad]
  exact ⟨getItem_error_of_getIdx m w _ hidx,
    setItem_error_of_getIdx m w _ v hidx,
    fun n1 n2 nb h => Err.noConfusion h⟩

/-- A tuple key whose second component is non-numeric, used in the C6
witness. -/
def xsBad : List PyVal := [.intLike 0, .nonNumeric, .intLike 7]

/-- Witness for the amended C6 at a concrete tuple key. -/
theorem c6_amended_invalid_key_witness :
    xsBad[1]? = some .nonNumeric
    ∧ ((psiGInit (V := ℚ)).getItem wMin (.tupleKey xsBad) =
        .error .invalidKeyType
    ∧ WfcManager.setItem (psiGInit (V := ℚ)) wMin (.tupleKey xsBad) 1 =
        .error .invalidKeyType
    ∧ (∀ (n1 n2 : Nat) (nb : List (List Nat)),
        Err.invalidKeyType ≠ Err.indexOutOfRange n1 n2 nb)) :=
  ⟨rfl, c6_amended_invalid_key wMin (psiGInit (V := ℚ)) 1 xsBad 1 (by decide)
    (fun i hi => by
      have h0 : i = 0 := by omega
      subst h0
      exact ⟨0, rfl⟩) rfl⟩

/-- C7 counterexample: with nspin = nkpt = 1, nbnd = 1, supplying the
explicit per-channel occupation value 1/2 stores 0 — the explicit branch
allocates the array with dtype=int, so the stored channel values are not
the supplied values. -/
theorem c7_counterexample :
    mkWavefunction 1 1 (.uniform 1) (.perChannel [[[mkRat 1 2]]]) =
      .ok ⟨1, 1, [[1]], [[[((0 : ℤ) : ℚ)]]], true⟩
    ∧ Wfc.occAt ⟨1, 1, [[1]], [[[((0 : ℤ) : ℚ)]]], true⟩ 0 0 0 ≠ mkRat 1 2 :=
  ⟨rfl, by decide⟩

/-- C7 amended: a 1D occupation sequence is broadcast unchanged to every
(spin, kpoint) channel; an explicit per-channel structure is sliced to each
channel's own band count and stored through the int dtype: for each channel
supplying at least nbnd[s,k] values, the stored occ[s,k,b] for b < nbnd[s,k]
is the truncation toward zero of the b-th supplied value of that channel
(positions past nbnd[s,k] stay zero). -/
theorem c7_amended_occ (nspin : Nat) (nbndIn : NbndInput)
    (nbnd : List (List Nat)) (v : List ℚ) (vv : List (List (List ℚ)))
    (hnb : mkNbnd nspin 1 nbndIn = .ok nbnd)
    (hch : ∀ s < nspin, ∀ k < 1, ((vv[s]?).bind fun rs => rs[k]?).isSome ∧
      nbndVal nbnd s k ≤ (occRow vv s k).length) :
    mkWavefunction nspin 1 nbndIn (.oneDim v) =
      .ok ⟨nspin, 1, nbnd, List.replicate nspin (List.replicate 1 v), false⟩
    ∧ mkWavefunction nspin 1 nbndIn (.perChannel vv) =
      .ok ⟨nspin, 1, nbnd, occExplicit nspin 1 nbnd vv, true⟩
    ∧ (∀ s, s < nspin → ∀ b, b < nbndVal nbnd s 0 →
      Wfc.occAt ⟨nspin, 1, nbnd, occExplicit nspin 1 nbnd vv, true⟩ s 0 b =
        ((ratTrunc ((occRow vv s 0).getD b 0) : ℤ) : ℚ)) := by
  refine ⟨mkWavefunction_ok_struct nspin nbndIn _ nbnd _ false hnb rfl,
    mkWavefunction_ok_struct nspin nbndIn _ nbnd _ true hnb
      (mkOcc_perChannel_ok nspin 1 nbnd vv hch), ?_⟩
  intro s hs b hb
  show (((occExplicit nspin 1 nbnd vv).getD s []).getD 0 []).getD b 0 = _
  unfold occExplicit
  rw [getD_map_range _ _ hs, getD_map_range _ _ (by omega : (0 : Nat) < 1),
    getD_map_range _ _ (lt_of_lt_of_le hb (nbndVal_le_maxNbnd nbnd s 0))]
  rw [if_pos hb]

/-- Witness for the amended C7: two channels with band counts 2 and 1,
fractional occupations. -/
theorem c7_amended_occ_witness :
    mkNbnd 2 1 (.perChannel [[2], [1]]) = .ok [[2], [1]]
    ∧ (mkWavefunction 2 1 (.perChannel [[2], [1]])
        (.oneDim [mkRat 1 2, mkRat 3 2]) =
      .ok ⟨2, 1, [[2], [1]],
        List.replicate 2 (List.replicate 1 [mkRat 1 2, mkRat 3 2]), false⟩
    ∧ mkWavefunction 2 1 (.perChannel [[2], [1]])
        (.perChannel [[[mkRat 1 2, mkRat 3 2]], [[mkRat 7 3]]]) =
      .ok ⟨2, 1, [[2], [1]],
        occExplicit 2 1 [[2], [1]] [[[mkRat 1 2, mkRat 3 2]], [[mkRat 7 3]]],
        true⟩
    ∧ (∀ s, s < 2 → ∀ b, b < nbndVal [[2], [1]] s 0 →
      Wfc.occAt ⟨2, 1, [[2], [1]],
          occExplicit 2 1 [[2], [1]] [[[mkRat 1 2, mkRat 3 2]], [[mkRat 7 3]]],
          true⟩ s 0 b =
        ((ratTrunc ((occRow [[[mkRat 1 2, mkRat 3 2]], [[mkRat 7 3]]] s 0).getD
          b 0) : ℤ) : ℚ))) :=
  ⟨rfl, c7_amended_occ 2 (.perChannel [[2], [1]]) [[2], [1]]
    [mkRat 1 2, mkRat 3 2] [[[mkRat 1 2, mkRat 3 2]], [[mkRat 7 3]]] rfl
    (by decide)⟩

/-- C8: the normalization transform asserts on exactly the fields whose shape
differs from the grid's declared shape (n1, n2, n3): every mismatched field
fails fast with the shape-mismatch error, every field of the declared shape
passes the assertion, and a psi_r insertion of a correctly shaped field never
produces the shape-mismatch error. -/
theorem c8_shape_assert (smpl : Sample) (g : Grid) (f fbad : Field3)
    (w : Wfc) (key : Key) (m : WfcManager Field3)
    (hm : m.transform = normalize smpl g)
    (hgood : f.shape = (g.n1, g.n2, g.n3))
    (hbad : fbad.shape ≠ (g.n1, g.n2, g.n3)) :
    normalize smpl g fbad = .error .shapeMismatch
    ∧ normalize smpl g f = .ok ⟨f.shape, fun i j k =>
        f.data i j k /
          ((Real.sqrt (fieldNormSq f * smpl.omega / g.N) : ℝ) : ℂ)⟩
    ∧ m.setItem w key f ≠ .error .shapeMismatch := by
  refine ⟨?_, ?_, ?_⟩
  · unfold normalize
    rw [if_neg hbad]
  · unfold normalize
    rw [if_pos hgood]
  · intro hcon
    unfold WfcManager.setItem at hcon
    cases hidx : w.getIdx key with
    | error e =>
      simp only [hidx] at hcon
      cases hcon
      rcases getIdx_errors w key hidx with h | h <;> exact Err.noConfusion h
    | ok idx =>
      simp only [hidx] at hcon
      rw [hm] at hcon
      unfold normalize at hcon
      rw [if_pos hgood] at hcon
      cases hcon

/-- A field with the wrong shape for the unit grid, used in the C8 witness. -/
noncomputable def fBad : Field3 := ⟨(2, 1, 1), fun _ _ _ => 1⟩

/-- Witness for C8 on the unit grid with an all-ones field and a mismatched
field. -/
theorem c8_shape_assert_witness :
    fOne.shape = (gOne.n1, gOne.n2, gOne.n3)
    ∧ fBad.shape ≠ (gOne.n1, gOne.n2, gOne.n3)
    ∧ (normalize sOne gOne fBad = .error .shapeMismatch
    ∧ normalize sOne gOne fOne = .ok ⟨fOne.shape, fun i j k =>
        fOne.data i j k /
          ((Real.sqrt (fieldNormSq fOne * sOne.omega / gOne.N) : ℝ) : ℂ)⟩
    ∧ (psiRInit sOne gOne).setItem wMin (.intKey 0) fOne ≠
        .error .shapeMismatch) :=
  ⟨rfl, by decide,
    c8_shape_assert sOne gOne fOne fBad wMin (.intKey 0) (psiRInit sOne gOne)
      rfl rfl (by decide)⟩

/-- C9: a set with the boundary triple key (s, 0, nbnd[s,0]) raises no error:
the inclusive bound checks pass, skb2idx returns the miss sentinel (Python
None), and the transformed value is stored under the dictionary key None; a
get with the same triple key returns that value, no integer key returns it
(the store starting empty gives key-not-found for every integer key), and
indices() contains the non-index key None. -/
theorem c9_boundary_none_key {V : Type} (w : Wfc) (hwf : w.wellFormed)
    (s : Nat) (hs : s < w.nspin) (t : V → Except Err V) (v tv : V)
    (ht : t v = .ok tv) :
    w.getIdx (.tupleKey [.intLike s, .intLike 0,
      .intLike (nbndVal w.nbnd s 0)]) = .ok none
    ∧ w.skb2idx (s, 0, nbndVal w.nbnd s 0) = none
    ∧ ∃ m2, WfcManager.setItem (⟨t, fun _ => none⟩ : WfcManager V) w
        (.tupleKey [.intLike s, .intLike 0, .intLike (nbndVal w.nbnd s 0)]) v
        = .ok m2
      ∧ m2.getItem w (.tupleKey [.intLike s, .intLike 0,
          .intLike (nbndVal w.nbnd s 0)]) = .ok tv
      ∧ m2.qty none = some tv
      ∧ (∀ n : Int, m2.getItem w (.intKey n) = .error .keyNotFound)
      ∧ none ∈ m2.indices := by
  have hidx := getIdx_boundary w hwf hs
  refine ⟨hidx, skb2idx_boundary_none w s 0, ?_⟩
  obtain ⟨h1, h2⟩ := setItem_getItem (⟨t, fun _ => none⟩ : WfcManager V) w
    (.tupleKey [.intLike s, .intLike 0, .intLike (nbndVal w.nbnd s 0)])
    v none tv hidx ht
  refine ⟨_, h1, h2, by simp, fun n => ?_, by simp [WfcManager.indices]⟩
  unfold WfcManager.getItem
  show (match (if (some n : Option Int) = none then some tv else none) with
    | some v => Except.ok v
    | none => Except.error Err.keyNotFound) = Except.error Err.keyNotFound
  simp

/-- Witness for C9: spin channel 1 of the `wEx2` configuration, whose band
count is 2, with the identity transform over ℚ. -/
theorem c9_boundary_none_key_witness :
    Wfc.wellFormed wEx2 ∧ 1 < wEx2.nspin
    ∧ (wEx2.getIdx (.tupleKey [.intLike 1, .intLike 0,
        .intLike (nbndVal wEx2.nbnd 1 0)]) = .ok none
    ∧ wEx2.skb2idx (1, 0, nbndVal wEx2.nbnd 1 0) = none
    ∧ ∃ m2, WfcManager.setItem
        (⟨fun q => .ok q, fun _ => none⟩ : WfcManager ℚ) wEx2
        (.tupleKey [.intLike 1, .intLike 0,
          .intLike (nbndVal wEx2.nbnd 1 0)]) 1 = .ok m2
      ∧ m2.getItem wEx2 (.tupleKey [.intLike 1, .intLike 0,
          .intLike (nbndVal wEx2.nbnd 1 0)]) = .ok 1
      ∧ m2.qty none = some 1
      ∧ (∀ n : Int, m2.getItem wEx2 (.intKey n) = .error .keyNotFound)
      ∧ none ∈ m2.indices) :=
  ⟨by decide, by decide,
    c9_boundary_none_key wEx2 (by decide) 1 (by decide)
      (fun q => .ok q) 1 1 rfl⟩

/-- C10: the explicit (ndim > 1) occupation branch allocates with int dtype,
so every stored entry is an integer — fractional values are truncated toward
zero — while the 1D branch keeps the supplied values with their dtype; the
same fractional occupations supplied in the two forms therefore store
different values. -/
theorem c10_occ_dtype (nspin nkpt : Nat) (nbndIn : NbndInput)
    (v : List ℚ) (vv : List (List (List ℚ))) (w1 w2 : Wfc)
    (h1 : mkWavefunction nspin nkpt nbndIn (.oneDim v) = .ok w1)
    (h2 : mkWavefunction nspin nkpt nbndIn (.perChannel vv) = .ok w2) :
    (w1.occIntDtype = false
      ∧ w1.occ = List.replicate nspin (List.replicate nkpt v))
    ∧ (w2.occIntDtype = true
      ∧ ∀ s k b : Nat, ∃ z : ℤ, w2.occAt s k b = (z : ℚ))
    ∧ (∃ wA wB : Wfc,
      mkWavefunction 1 1 (.uniform 1) (.oneDim [mkRat 1 2]) = .ok wA
      ∧ mkWavefunction 1 1 (.uniform 1) (.perChannel [[[mkRat 1 2]]]) = .ok wB
      ∧ wA.occAt 0 0 0 = mkRat 1 2 ∧ wB.occAt 0 0 0 = 0
      ∧ wA.occAt 0 0 0 ≠ wB.occAt 0 0 0) := by
  obtain ⟨hk1, nbnd1, occ1, d1, hnb1, hocc1, hw1⟩ := mkWavefunction_ok_inv h1
  obtain ⟨-, nbnd2, occ2, d2, hnb2, hocc2, hw2⟩ := mkWavefunction_ok_inv h2
  subst hk1
  obtain ⟨ho1, hd1⟩ := mkOcc_oneDim_inv hocc1
  obtain ⟨hd2, hmap2⟩ := mkOcc_perChannel_inv hocc2
  refine ⟨?_, ?_, ?_⟩
  · subst hw1
    subst hd1
    subst ho1
    exact ⟨rfl, rfl⟩
  · subst hw2
    subst hd2
    refine ⟨rfl, ?_⟩
    have hentries : ∀ a ∈ occ2, ∀ r ∈ a, ∀ q ∈ r, ∃ z : ℤ, q = (z : ℚ) := by
      intro a ha
      refine exceptMapList_ok_forall _
        (fun a2 => ∀ r ∈ a2, ∀ q ∈ r, ∃ z : ℤ, q = (z : ℚ)) ?_ hmap2 a ha
      intro s rows hrow r hr
      refine exceptMapList_ok_forall _
        (fun r2 => ∀ q ∈ r2, ∃ z : ℤ, q = (z : ℚ)) ?_ hrow r hr
      intro k ys hys q hq
      exact occChannel_entries hys q hq
    exact occAt_int ⟨nspin, 1, nbnd2, occ2, true⟩ hentries
  · refine ⟨⟨1, 1, [[1]], [[[mkRat 1 2]]], false⟩,
      ⟨1, 1, [[1]], [[[((0 : ℤ) : ℚ)]]], true⟩, rfl, rfl, by decide, by decide,
      by decide⟩

/-- Witness for C10 at the shared concrete fractional configuration. -/
theorem c10_occ_dtype_witness :
    mkWavefunction 1 1 (.uniform 1) (.oneDim [mkRat 1 2]) =
      .ok ⟨1, 1, [[1]], [[[mkRat 1 2]]], false⟩
    ∧ mkWavefunction 1 1 (.uniform 1) (.perChannel [[[mkRat 1 2]]]) =
      .ok ⟨1, 1, [[1]], [[[((0 : ℤ) : ℚ)]]], true⟩
    ∧ ((Wfc.occIntDtype ⟨1, 1, [[1]], [[[mkRat 1 2]]], false⟩ = false
      ∧ Wfc.occ ⟨1, 1, [[1]], [[[mkRat 1 2]]], false⟩ =
        List.replicate 1 (List.replicate 1 [mkRat 1 2]))
    ∧ (Wfc.occIntDtype ⟨1, 1, [[1]], [[[((0 : ℤ) : ℚ)]]], true⟩ = true
      ∧ ∀ s k b : Nat, ∃ z : ℤ,
        Wfc.occAt ⟨1, 1, [[1]], [[[((0 : ℤ) : ℚ)]]], true⟩ s k b = (z : ℚ))
    ∧ (∃ wA wB : Wfc,
      mkWavefunction 1 1 (.uniform 1) (.oneDim [mkRat 1 2]) = .ok wA
      ∧ mkWavefunction 1 1 (.uniform 1) (.perChannel [[[mkRat 1 2]]]) = .ok wB
      ∧ wA.occAt 0 0 0 = mkRat 1 2 ∧ wB.occAt 0 0 0 = 0
      ∧ wA.occAt 0 0 0 ≠ wB.occAt 0 0 0)) :=
  ⟨rfl, rfl,
    c10_occ_dtype 1 1 (.uniform 1) [mkRat 1 2] [[[mkRat 1 2]]]
      ⟨1, 1, [[1]], [[[mkRat 1 2]]], false⟩
      ⟨1, 1, [[1]], [[[((0 : ℤ) : ℚ)]]], true⟩ rfl rfl⟩

end PyCdft
